import Mathlib

/-!
Verification of the indicator and ranking computations of the short-atr
repository (src/pump.py, src/all_sym_rank.py) against its specification.

The Python code is shallowly embedded: candles and ticker records become
structures over `ℚ`, the pandas column arithmetic of `ATRScanner.calculate_atr`
becomes explicit list recursion, and the dictionary-based
`CryptoPumpDetector.calculate_pump_score` becomes a function on a `Metrics`
structure whose optional keys are `Option ℚ` (Python's `dict.get(key, 0)`
becomes `Option.getD · 0`).
-/

namespace ShortAtr

/-- One kline/candlestick row, as processed by `get_kline_data`:
open time plus open/high/low/close/volume as exact rationals. -/
structure Candle where
  openTime : ℤ
  openP : ℚ
  high : ℚ
  low : ℚ
  close : ℚ
  volume : ℚ
deriving DecidableEq

/-- The true range of candle `c` given the previous candle `prev`:
`max(high - low, |high - prev_close|, |low - prev_close|)`.
This is the row-wise `max` of `tr1`, `tr2`, `tr3` in `calculate_atr`. -/
def trueRange (c prev : Candle) : ℚ :=
  max (c.high - c.low) (max |c.high - prev.close| |c.low - prev.close|)

/-- True ranges of a candle list, each taken against the previous candle
`prev`; helper for `trSeries`. -/
def trAux : Candle → List Candle → List ℚ
  | _, [] => []
  | prev, c :: rest => trueRange c prev :: trAux c rest

/-- The `true_range` column computed in `calculate_atr`.  For row 0,
`close.shift(1)` is NaN, so `tr2` and `tr3` are NaN there and the row-wise
`max` (pandas skips NaN) degenerates to `tr1 = high - low`. -/
def trSeries : List Candle → List ℚ
  | [] => []
  | c :: rest => (c.high - c.low) :: trAux c rest

/-- The last `n` elements of a list (Python's `l[-n:]`, pandas' final
rolling window). -/
def lastN (n : ℕ) (l : List α) : List α := l.drop (l.length - n)

/-- `ATRScanner.calculate_atr`: returns `0.0` when fewer than `period + 1`
candles are available, otherwise the last entry of the rolling `period`-mean
of the `true_range` column, i.e. the mean of the final `period` true ranges.
(The trailing `pd.isna` guard of the source is unreachable once the length
guard has passed, since every `true_range` entry is a number.) -/
def calculate_atr (df : List Candle) (period : ℕ) : ℚ :=
  if df.length < period + 1 then 0
  else (lastN period (trSeries df)).sum / period

/-- `ATRScanner.calculate_atr_percentage`: `(atr * multiplier / price) * 100`
with a `price ≤ 0 → 0` guard. -/
def calculate_atr_percentage (atrValue currentPrice multiplier : ℚ) : ℚ :=
  if currentPrice ≤ 0 then 0
  else
    let atrAdjusted := atrValue * multiplier
    atrAdjusted / currentPrice * 100

/-- The spec's true-range sequence: `TR[i]` for `i ≥ 1` only, each candle
paired with the close of its predecessor; `TR[0]` is excluded. -/
def trFrom1 (df : List Candle) : List ℚ := List.zipWith trueRange (df.drop 1) df

/-! Helper lemmas about the true-range lists. -/

theorem trAux_eq_zipWith (prev : Candle) (l : List Candle) :
    trAux prev l = List.zipWith trueRange l (prev :: l) := by
  induction l generalizing prev with
  | nil => rfl
  | cons c rest ih => simp [trAux, ih c]

theorem trAux_length (prev : Candle) (l : List Candle) :
    (trAux prev l).length = l.length := by
  induction l generalizing prev with
  | nil => rfl
  | cons c rest ih => simp [trAux, ih c]

theorem lastN_cons_of_le {α : Type} (n : ℕ) (x : α) (t : List α)
    (h : n ≤ t.length) : lastN n (x :: t) = lastN n t := by
  unfold lastN
  have hlen : (x :: t).length - n = (t.length - n) + 1 := by
    simp only [List.length_cons]; omega
  rw [hlen, List.drop_succ_cons]

/-- Concrete three-candle series used as evaluation input. -/
def atrDemo : List Candle :=
  [⟨0, 6, 10, 5, 7, 1⟩, ⟨0, 7, 12, 6, 9, 1⟩, ⟨0, 9, 11, 8, 10, 1⟩]

/-- Concrete two-candle series: too short for `period = 2`. -/
def shortDemo : List Candle := [⟨0, 6, 10, 5, 7, 1⟩, ⟨0, 7, 12, 6, 9, 1⟩]

/-- Concrete flat series (high = low = close): genuine zero volatility. -/
def flatDemo : List Candle := [⟨0, 5, 5, 5, 5, 1⟩, ⟨1, 5, 5, 5, 5, 1⟩, ⟨2, 5, 5, 5, 5, 1⟩]

/-- C1 (counterexample): with `period = 2`, the two-candle series gets the
plain numeric result `0` from `calculate_atr` — the very same value the
estimator returns for a flat three-candle series whose volatility is a
genuinely computed zero.  No distinct insufficient-data signal exists. -/
theorem calculate_atr_short_series_conflated_with_zero :
    shortDemo.length < 2 + 1 ∧ calculate_atr shortDemo 2 = 0 ∧
      2 + 1 ≤ flatDemo.length ∧ calculate_atr flatDemo 2 = 0 := by
  refine ⟨by decide, ?_, by decide, ?_⟩ <;>
    norm_num [calculate_atr, shortDemo, flatDemo, trSeries, trAux, trueRange, lastN]

/-- C1 (amended): whenever fewer than `period + 1` candles are available,
`calculate_atr` returns the numeric `0.0` — indistinguishable from a
computed zero volatility — rather than a distinct signal. -/
theorem calculate_atr_insufficient_data_returns_zero
    (df : List Candle) (period : ℕ) (h : df.length < period + 1) :
    calculate_atr df period = 0 := by
  unfold calculate_atr
  rw [if_pos h]

/-- C1 (witness): the amended statement evaluated on the concrete short
series. -/
theorem calculate_atr_insufficient_data_returns_zero_witness :
    calculate_atr shortDemo 2 = 0 :=
  calculate_atr_insufficient_data_returns_zero shortDemo 2 (by decide)

/-- C3: for a series of length at least `period + 1` (and a positive
period), `calculate_atr` is the arithmetic mean of the most recent `period`
true ranges taken from `trFrom1`, the sequence that starts at index 1 and
excludes `TR[0]`. -/
theorem calculate_atr_is_sma_of_true_range
    (df : List Candle) (period : ℕ) (_hp : 0 < period)
    (hlen : period + 1 ≤ df.length) :
    calculate_atr df period = (lastN period (trFrom1 df)).sum / period := by
  match df with
  | [] => simp at hlen
  | c :: rest =>
    unfold calculate_atr
    rw [if_neg (by omega)]
    have hrest : period ≤ rest.length := by
      simp only [List.length_cons] at hlen; omega
    have h1 : trSeries (c :: rest) = (c.high - c.low) :: trAux c rest := rfl
    have h2 : trFrom1 (c :: rest) = trAux c rest := by
      unfold trFrom1
      rw [trAux_eq_zipWith]
      rfl
    rw [h1, h2, lastN_cons_of_le period _ _ (by rw [trAux_length]; exact hrest)]

/-- C3 (witness): on the concrete three-candle series with `period = 2`,
both sides evaluate to `(6 + 3) / 2 = 9/2`. -/
theorem calculate_atr_is_sma_of_true_range_witness :
    calculate_atr atrDemo 2 = (lastN 2 (trFrom1 atrDemo)).sum / 2 ∧
      calculate_atr atrDemo 2 = 9 / 2 := by
  refine ⟨calculate_atr_is_sma_of_true_range atrDemo 2 (by decide) (by decide), ?_⟩
  norm_num [calculate_atr, atrDemo, trSeries, trAux, trueRange, lastN]

/-- C4: `calculate_atr_percentage` is `(atr * multiplier / price) * 100` for
a positive price, and `0` for a non-positive price. -/
theorem calculate_atr_percentage_formula (a p m : ℚ) :
    (0 < p → calculate_atr_percentage a p m = a * m / p * 100) ∧
      (p ≤ 0 → calculate_atr_percentage a p m = 0) := by
  constructor
  · intro hp
    unfold calculate_atr_percentage
    rw [if_neg (not_le.mpr hp)]
  · intro hp
    unfold calculate_atr_percentage
    rw [if_pos hp]

/-- C4 (witness): at `atr = 2`, `price = 100`, `multiplier = 3/2` the
formula branch applies and gives `3`. -/
theorem calculate_atr_percentage_formula_witness :
    calculate_atr_percentage 2 100 (3 / 2) = 2 * (3 / 2) / 100 * 100 ∧
      calculate_atr_percentage 2 100 (3 / 2) = 3 := by
  refine ⟨(calculate_atr_percentage_formula 2 100 (3 / 2)).1 (by norm_num), ?_⟩
  norm_num [calculate_atr_percentage]

/-- The metrics dictionary consumed by `CryptoPumpDetector.calculate_pump_score`.
The keys read with `metrics['...']` (mandatory) are plain fields; the keys read
with `metrics.get('...', 0)` (optional: `'volume_spike_ratio'`, modelled by
`volume_spike`, `'max_hourly_pump'` and `'distance_from_high'`) are `Option ℚ`. -/
structure Metrics where
  price_change_24h : ℚ
  quote_volume_24h : ℚ
  volume_spike : Option ℚ
  max_hourly_pump : Option ℚ
  distance_from_high : Option ℚ

/-- Python's `round(x, 2)`: round to the nearest hundredth. -/
def round2 (x : ℚ) : ℚ := ((round (x * 100) : ℤ) : ℚ) / 100

/-- `CryptoPumpDetector.calculate_pump_score`, mirroring the source's
`score` accumulator: additive tiers for price change, volume spike and max
hourly pump, then the multiplicative distance penalty, then the liquidity
penalty, then rounding to two decimals. -/
def calculate_pump_score (m : Metrics) : ℚ :=
  let score0 : ℚ := 0
  let price_change := m.price_change_24h
  let score1 := score0 +
    (if price_change > 50 then 40 else if price_change > 30 then 30
     else if price_change > 15 then 20 else if price_change > 5 then 10 else 0)
  let volume_spike := m.volume_spike.getD 0
  let score2 := score1 +
    (if volume_spike > 5 then 25 else if volume_spike > 3 then 20
     else if volume_spike > 2 then 15 else if volume_spike > 1.5 then 10 else 0)
  let max_pump := m.max_hourly_pump.getD 0
  let score3 := score2 +
    (if max_pump > 20 then 20 else if max_pump > 15 then 15
     else if max_pump > 10 then 10 else if max_pump > 5 then 5 else 0)
  let distance := m.distance_from_high.getD 0
  let score4 :=
    if distance > 30 then score3 * 0.5
    else if distance > 20 then score3 * 0.7
    else if distance > 10 then score3 * 0.85
    else score3
  let score5 := if m.quote_volume_24h < 1000000 then score4 * 0.5 else score4
  round2 score5

/-! Spec-side rule table, following the wording of the specification. -/

/-- Spec step 1: base score from the 24h price-change percentage. -/
def baseScore (pc : ℚ) : ℚ :=
  if pc > 50 then 40 else if pc > 30 then 30
  else if pc > 15 then 20 else if pc > 5 then 10 else 0

/-- Spec step 2: volume-spike contribution. -/
def volumeSpikeScore (vs : ℚ) : ℚ :=
  if vs > 5 then 25 else if vs > 3 then 20
  else if vs > 2 then 15 else if vs > 1.5 then 10 else 0

/-- Spec step 3: max-single-hour-pump contribution. -/
def maxPumpScore (mp : ℚ) : ℚ :=
  if mp > 20 then 20 else if mp > 15 then 15
  else if mp > 10 then 10 else if mp > 5 then 5 else 0

/-- Spec step 4: multiplicative penalty from the distance to the 24h high. -/
def distancePenalty (d : ℚ) : ℚ :=
  if d > 30 then 0.5 else if d > 20 then 0.7 else if d > 10 then 0.85 else 1

/-- Spec step 5: liquidity penalty for quote volume below 1,000,000. -/
def liquidityPenalty (qv : ℚ) : ℚ := if qv < 1000000 then 0.5 else 1

/-- The scoring rule exactly as the specification words it: the three tier
sums, then the distance factor on the running sum, then the liquidity
factor, then rounding to two decimals. -/
def pump_score_spec (m : Metrics) : ℚ :=
  round2 ((baseScore m.price_change_24h + volumeSpikeScore (m.volume_spike.getD 0)
      + maxPumpScore (m.max_hourly_pump.getD 0))
    * distancePenalty (m.distance_from_high.getD 0)
    * liquidityPenalty m.quote_volume_24h)

theorem liqMul (s qv : ℚ) :
    (if qv < 1000000 then s * 0.5 else s) = s * liquidityPenalty qv := by
  unfold liquidityPenalty
  split_ifs <;> ring

theorem distMul (s d : ℚ) :
    (if d > 30 then s * 0.5 else if d > 20 then s * 0.7
     else if d > 10 then s * 0.85 else s) = s * distancePenalty d := by
  unfold distancePenalty
  split_ifs <;> ring

/-- The source accumulator agrees with the spec-side rule table. -/
theorem pump_score_eq_spec (m : Metrics) :
    calculate_pump_score m = pump_score_spec m := by
  simp only [calculate_pump_score, pump_score_spec, baseScore, volumeSpikeScore, maxPumpScore]
  rw [liqMul, distMul]
  congr 1
  ring

theorem round2_mono {a b : ℚ} (h : a ≤ b) : round2 a ≤ round2 b := by
  unfold round2
  have hr : round (a * 100) ≤ round (b * 100) := by
    rw [round_eq, round_eq]
    exact Int.floor_le_floor (by linarith)
  have hq : ((round (a * 100) : ℤ) : ℚ) ≤ ((round (b * 100) : ℤ) : ℚ) := by
    exact_mod_cast hr
  linarith

theorem round2_zero_eq : round2 0 = 0 := by simp [round2]

theorem round2_85 : round2 85 = 85 := by
  unfold round2
  rw [show (85 : ℚ) * 100 = ((8500 : ℤ) : ℚ) by norm_num, round_intCast]
  norm_num

theorem baseScore_bounds (pc : ℚ) : 0 ≤ baseScore pc ∧ baseScore pc ≤ 40 := by
  unfold baseScore
  split_ifs <;> norm_num

theorem volumeSpikeScore_bounds (vs : ℚ) :
    0 ≤ volumeSpikeScore vs ∧ volumeSpikeScore vs ≤ 25 := by
  unfold volumeSpikeScore
  split_ifs <;> norm_num

theorem maxPumpScore_bounds (mp : ℚ) : 0 ≤ maxPumpScore mp ∧ maxPumpScore mp ≤ 20 := by
  unfold maxPumpScore
  split_ifs <;> norm_num

theorem distancePenalty_bounds (d : ℚ) :
    0 < distancePenalty d ∧ distancePenalty d ≤ 1 := by
  unfold distancePenalty
  split_ifs <;> norm_num

theorem liquidityPenalty_bounds (qv : ℚ) :
    0 < liquidityPenalty qv ∧ liquidityPenalty qv ≤ 1 := by
  unfold liquidityPenalty
  split_ifs <;> norm_num

theorem baseScore_mono {pc1 pc2 : ℚ} (h : pc1 ≤ pc2) :
    baseScore pc1 ≤ baseScore pc2 := by
  unfold baseScore
  split_ifs <;> linarith

/-- C2: `calculate_pump_score` is exactly the spec's rule table, in the
spec's order — tier sums, then the distance penalty on the running sum,
then the liquidity penalty, then rounding to two decimals. -/
theorem calculate_pump_score_rule_table (m : Metrics) :
    calculate_pump_score m = pump_score_spec m :=
  pump_score_eq_spec m

/-- C7: the score is monotone non-decreasing in the 24h price change when
every other metric is held fixed. -/
theorem calculate_pump_score_mono_price_change
    (m : Metrics) (pc1 pc2 : ℚ) (h : pc1 ≤ pc2) :
    calculate_pump_score { m with price_change_24h := pc1 } ≤
      calculate_pump_score { m with price_change_24h := pc2 } := by
  obtain ⟨pc, qv, vs, mp, d⟩ := m
  rw [pump_score_eq_spec, pump_score_eq_spec]
  unfold pump_score_spec
  dsimp only
  apply round2_mono
  have hb := baseScore_mono h
  have hd := (distancePenalty_bounds (d.getD 0)).1.le
  have hl := (liquidityPenalty_bounds qv).1.le
  have hs : baseScore pc1 + volumeSpikeScore (vs.getD 0) + maxPumpScore (mp.getD 0) ≤
      baseScore pc2 + volumeSpikeScore (vs.getD 0) + maxPumpScore (mp.getD 0) := by
    linarith
  exact mul_le_mul_of_nonneg_right (mul_le_mul_of_nonneg_right hs hd) hl

/-- C7 (witness): with the other metrics fixed, raising the price change
from 10 to 60 does not lower the score. -/
theorem calculate_pump_score_mono_price_change_witness :
    calculate_pump_score
        { (⟨0, 2000000, some 2, some 6, some 5⟩ : Metrics) with price_change_24h := 10 } ≤
      calculate_pump_score
        { (⟨0, 2000000, some 2, some 6, some 5⟩ : Metrics) with price_change_24h := 60 } :=
  calculate_pump_score_mono_price_change ⟨0, 2000000, some 2, some 6, some 5⟩ 10 60
    (by norm_num)

/-- C8: the score always lies in the interval `[0, 85]`. -/
theorem calculate_pump_score_bounded (m : Metrics) :
    0 ≤ calculate_pump_score m ∧ calculate_pump_score m ≤ 85 := by
  obtain ⟨pc, qv, vs, mp, d⟩ := m
  rw [pump_score_eq_spec]
  unfold pump_score_spec
  dsimp only
  have h1 := baseScore_bounds pc
  have h2 := volumeSpikeScore_bounds (vs.getD 0)
  have h3 := maxPumpScore_bounds (mp.getD 0)
  have hD := distancePenalty_bounds (d.getD 0)
  have hL := liquidityPenalty_bounds qv
  have hS0 : 0 ≤ baseScore pc + volumeSpikeScore (vs.getD 0) + maxPumpScore (mp.getD 0) := by
    linarith
  have hS85 : baseScore pc + volumeSpikeScore (vs.getD 0) + maxPumpScore (mp.getD 0) ≤ 85 := by
    linarith
  have hX0 : 0 ≤ (baseScore pc + volumeSpikeScore (vs.getD 0) + maxPumpScore (mp.getD 0))
      * distancePenalty (d.getD 0) * liquidityPenalty qv :=
    mul_nonneg (mul_nonneg hS0 hD.1.le) hL.1.le
  have hX85 : (baseScore pc + volumeSpikeScore (vs.getD 0) + maxPumpScore (mp.getD 0))
      * distancePenalty (d.getD 0) * liquidityPenalty qv ≤ 85 := by
    calc (baseScore pc + volumeSpikeScore (vs.getD 0) + maxPumpScore (mp.getD 0))
        * distancePenalty (d.getD 0) * liquidityPenalty qv
        ≤ 85 * 1 * 1 := by
          exact mul_le_mul (mul_le_mul hS85 hD.2 hD.1.le (by norm_num)) hL.2 hL.1.le
            (by norm_num)
      _ = 85 := by norm_num
  constructor
  · have hz := round2_mono hX0
    rwa [round2_zero_eq] at hz
  · have hb := round2_mono hX85
    rwa [round2_85] at hb

/-- A metrics record with every optional key filled with its `get`-default. -/
def fillDefaults (m : Metrics) : Metrics :=
  { m with
    volume_spike := some (m.volume_spike.getD 0)
    max_hourly_pump := some (m.max_hourly_pump.getD 0)
    distance_from_high := some (m.distance_from_high.getD 0) }

/-- C10: an absent optional key is scored exactly like the key present with
value 0, and the score stays defined — filling the defaults never changes
the result. -/
theorem calculate_pump_score_missing_keys_default (m : Metrics) :
    calculate_pump_score m = calculate_pump_score (fillDefaults m) := by
  obtain ⟨pc, qv, vs, mp, d⟩ := m
  cases vs <;> cases mp <;> cases d <;> rfl

/-! `CryptoPumpDetector.calculate_pump_metrics`: the per-hour pump values and
the volume-spike detection over the 24-candle hourly window. -/

/-- The per-hour pump values `(high[i] - close[i-1]) / close[i-1] * 100` for
`i ≥ 1`, as computed in the `max_hourly_pump` loop. -/
def hourlyPumps (kline : List Candle) : List ℚ :=
  List.zipWith (fun c prev => (c.high - prev.close) / prev.close * 100)
    (kline.drop 1) kline

/-- The `max_hourly_pump` metric: starts from `0` and folds `max` over the
per-hour pump values. -/
def maxHourlyPump (kline : List Candle) : ℚ := (hourlyPumps kline).foldl max 0

/-- The `volume_spike_ratio` metric: when at least 24 candles are present,
the last 6 hours' summed volume over one third of the previous 18 hours'
summed volume, guarded to `0` when the latter sum is not positive. -/
def volumeSpike (kline : List Candle) : ℚ :=
  if 24 ≤ kline.length then
    let recent := ((lastN 6 kline).map Candle.volume).sum
    let previous := (((lastN 24 kline).take 18).map Candle.volume).sum
    if 0 < previous then recent / (previous / 3) else 0
  else 0

theorem le_foldl_max_init (l : List ℚ) (a : ℚ) : a ≤ l.foldl max a := by
  induction l generalizing a with
  | nil => simp
  | cons b t ih =>
    simp only [List.foldl_cons]
    exact le_trans (le_max_left a b) (ih (max a b))

theorem le_foldl_max_of_mem {x : ℚ} {l : List ℚ} (a : ℚ) (hx : x ∈ l) :
    x ≤ l.foldl max a := by
  induction l generalizing a with
  | nil => simp at hx
  | cons b t ih =>
    simp only [List.foldl_cons]
    rcases List.mem_cons.mp hx with h | h
    · subst h
      exact le_trans (le_max_right a x) (le_foldl_max_init t (max a x))
    · exact ih (max a b) h

/-- C9: `max_hourly_pump` is never negative — it is the maximum of `0` and
all per-hour pump values, so an all-declining series reports `0`. -/
theorem max_hourly_pump_nonneg (kline : List Candle) :
    0 ≤ maxHourlyPump kline ∧ ∀ x ∈ hourlyPumps kline, x ≤ maxHourlyPump kline := by
  unfold maxHourlyPump
  exact ⟨le_foldl_max_init _ 0, fun x hx => le_foldl_max_of_mem 0 hx⟩

/-- Concrete two-candle series in which the single hour declines: its only
per-hour pump value is `-50`. -/
def declDemo : List Candle := [⟨0, 95, 100, 90, 100, 1⟩, ⟨1, 45, 50, 40, 45, 1⟩]

/-- C9 (witness): on the declining series, the metric is still at least `0`
and dominates the (negative) per-hour value `-50`. -/
theorem max_hourly_pump_nonneg_witness :
    0 ≤ maxHourlyPump declDemo ∧ (-50 : ℚ) ≤ maxHourlyPump declDemo := by
  refine ⟨(max_hourly_pump_nonneg declDemo).1,
    (max_hourly_pump_nonneg declDemo).2 (-50) ?_⟩
  norm_num [hourlyPumps, declDemo]

/-- C6: on a 24-candle window with non-negative volumes, `volume_spike` is
the recent-6-candle volume sum divided by a third of the preceding
18-candle volume sum, and `0` when that denominator vanishes. -/
theorem volume_spike_matches_spec (kline : List Candle)
    (hlen : kline.length = 24) (hvol : ∀ c ∈ kline, 0 ≤ c.volume) :
    (((kline.take 18).map Candle.volume).sum / 3 = 0 → volumeSpike kline = 0) ∧
      (((kline.take 18).map Candle.volume).sum / 3 ≠ 0 →
        volumeSpike kline =
          ((kline.drop 18).map Candle.volume).sum /
            (((kline.take 18).map Candle.volume).sum / 3)) := by
  have h6 : lastN 6 kline = kline.drop 18 := by
    unfold lastN
    rw [hlen]
  have h24 : lastN 24 kline = kline := by
    unfold lastN
    rw [hlen]
    simp
  have hprev0 : 0 ≤ ((kline.take 18).map Candle.volume).sum := by
    apply List.sum_nonneg
    intro x hxm
    obtain ⟨c, hc, rfl⟩ := List.mem_map.mp hxm
    exact hvol c (List.take_subset 18 kline hc)
  simp only [volumeSpike]
  rw [if_pos (by omega : 24 ≤ kline.length), h6, h24]
  constructor
  · intro h0
    have hs : ((kline.take 18).map Candle.volume).sum = 0 := by
      rcases div_eq_zero_iff.mp h0 with h | h
      · exact h
      · norm_num at h
    rw [hs]
    norm_num
  · intro hne
    have hs : ((kline.take 18).map Candle.volume).sum ≠ 0 := by
      intro h
      exact hne (by rw [h]; norm_num)
    rw [if_pos (lt_of_le_of_ne hprev0 (Ne.symm hs))]

/-- A flat unit candle used to build a concrete 24-candle window. -/
def unitCandle : Candle := ⟨0, 1, 1, 1, 1, 1⟩

/-- A concrete 24-candle window of unit volumes. -/
def demo24 : List Candle := List.replicate 24 unitCandle

/-- C6 (witness): on the unit-volume window the denominator is `18 / 3 ≠ 0`
and the ratio evaluates to `6 / (18 / 3) = 1`. -/
theorem volume_spike_matches_spec_witness :
    ((demo24.take 18).map Candle.volume).sum / 3 ≠ 0 ∧ volumeSpike demo24 = 1 := by
  have hlen : demo24.length = 24 := by simp [demo24]
  have hvol : ∀ c ∈ demo24, 0 ≤ c.volume := by
    intro c hc
    rw [List.eq_of_mem_replicate hc]
    norm_num [unitCandle]
  have hsum : ((demo24.take 18).map Candle.volume).sum = 18 := by
    simp [demo24, unitCandle, List.take_replicate]
    norm_num
  have hrec : ((demo24.drop 18).map Candle.volume).sum = 6 := by
    simp [demo24, unitCandle, List.drop_replicate]
    norm_num
  have hne : ((demo24.take 18).map Candle.volume).sum / 3 ≠ 0 := by
    rw [hsum]
    norm_num
  refine ⟨hne, ?_⟩
  rw [(volume_spike_matches_spec demo24 hlen hvol).2 hne, hsum, hrec]
  norm_num

/-! The Volume Ranker of `get_top_100_um_futures` (src/all_sym_rank.py):
`sorted(usdt_futures, key=lambda x: x['quoteVolume'], reverse=True)`.
Python's `sorted` is documented stable, and `reverse=True` preserves
stability, so the ranking step is THE stable descending sort by
`quoteVolume`; any stable sort realises it, and we use insertion sort,
the canonical stable sort.  The `[:100]` truncation applied afterwards in
the source is outside the ranking contract. -/

/-- One record of the ranker's working list: the symbol together with its
24h quote volume (the sort key). -/
structure TickerRow where
  symbol : String
  quoteVolume : ℚ

/-- The ranker's ordering: `a` precedes `b` when `a`'s quote volume is at
least `b`'s (descending; ties keep input order on the left). -/
def volGe (a b : TickerRow) : Prop := b.quoteVolume ≤ a.quoteVolume

instance : DecidableRel volGe := fun a b =>
  inferInstanceAs (Decidable (b.quoteVolume ≤ a.quoteVolume))

instance : IsTotal TickerRow volGe :=
  ⟨fun a b => le_total b.quoteVolume a.quoteVolume⟩

instance : IsTrans TickerRow volGe :=
  ⟨fun _ _ _ hab hbc => le_trans hbc hab⟩

/-- The ranking step of `get_top_100_um_futures`: stable sort, descending
by quote volume. -/
def rankByQuoteVolume (l : List TickerRow) : List TickerRow :=
  List.insertionSort volGe l

theorem filter_orderedInsert_eq (v : ℚ) (x : TickerRow)
    (hx : x.quoteVolume = v) (s : List TickerRow) :
    (List.orderedInsert volGe x s).filter (fun p => decide (p.quoteVolume = v)) =
      x :: s.filter (fun p => decide (p.quoteVolume = v)) := by
  induction s with
  | nil => simp [List.orderedInsert, hx]
  | cons b t ih =>
    by_cases h : volGe x b
    · simp [List.orderedInsert, h, List.filter_cons, hx]
    · have hb : ¬ b.quoteVolume = v := by
        intro hbv
        exact h (by unfold volGe; rw [hbv, hx])
      simp [List.orderedInsert, if_neg h, List.filter_cons, hb, ih]

theorem filter_orderedInsert_ne (v : ℚ) (x : TickerRow)
    (hx : ¬ x.quoteVolume = v) (s : List TickerRow) :
    (List.orderedInsert volGe x s).filter (fun p => decide (p.quoteVolume = v)) =
      s.filter (fun p => decide (p.quoteVolume = v)) := by
  induction s with
  | nil => simp [List.orderedInsert, hx]
  | cons b t ih =>
    by_cases h : volGe x b
    · simp [List.orderedInsert, h, List.filter_cons, hx]
    · simp only [List.orderedInsert, if_neg h, List.filter_cons, ih]

theorem rank_filter_stable (l : List TickerRow) (v : ℚ) :
    (rankByQuoteVolume l).filter (fun p => decide (p.quoteVolume = v)) =
      l.filter (fun p => decide (p.quoteVolume = v)) := by
  unfold rankByQuoteVolume
  induction l with
  | nil => rfl
  | cons x xs ih =>
    simp only [List.insertionSort]
    by_cases hx : x.quoteVolume = v
    · rw [filter_orderedInsert_eq v x hx, ih, List.filter_cons, if_pos (by simp [hx])]
    · rw [filter_orderedInsert_ne v x hx, ih, List.filter_cons,
        if_neg (by simp [hx])]

/-- C5: the ranker's output is non-increasing in quote volume, the sort is
stable (for every volume value, the records carrying it appear exactly in
their input order), and the empty input yields the empty output. -/
theorem rankByQuoteVolume_sorted_stable (l : List TickerRow) :
    (rankByQuoteVolume l).Sorted (fun a b => b.quoteVolume ≤ a.quoteVolume) ∧
      (∀ v : ℚ, (rankByQuoteVolume l).filter (fun p => decide (p.quoteVolume = v)) =
        l.filter (fun p => decide (p.quoteVolume = v))) ∧
      rankByQuoteVolume ([] : List TickerRow) = [] := by
  refine ⟨?_, fun v => rank_filter_stable l v, rfl⟩
  exact List.sorted_insertionSort volGe l

end ShortAtr
